import Mathlib

/-!
# Marketplace backend: escrow state machines and rating aggregation

Shallow embedding of the marketplace backend's listing lifecycle
(`routes/products` purchase / confirm-purchase / cancel-purchase / delete),
order lifecycle (`routes/orders` create / ship / confirm-delivery / cancel),
review routes (`routes/reviews` create / update / delete with the
`updateProductRatings` / `updateSellerRatings` recomputation helpers) and the
admin user-deletion route (`routes/admin`), together with proofs of the
specified invariants and transition properties.

Entities live in four collections (products, orders, reviews, users) kept as
lists; document ids are natural numbers, and the database's unique-`_id`
guarantee is captured by the `WF` well-formedness predicate (no duplicate ids
per collection).  `findByIdAndUpdate` / `save` are modelled as an id-keyed
in-place update, `findByIdAndDelete` / `deleteMany` as filters.  Route
handlers return `Except ErrResp MState`: every early `return res.status(...)`
in the source is an `Except.error` carrying the HTTP status code and message,
and no state is mutated on an error path (faithful to the handlers, which
only write after all validation passes).
-/

namespace Marketplace

abbrev UserId := Nat
abbrev ProductId := Nat
abbrev OrderId := Nat
abbrev ReviewId := Nat

/-- `Product.status` enum from `models/Product.js`: `['available', 'sold', 'pending']`. -/
inductive PStatus
  | available
  | sold
  | pending
deriving DecidableEq, Repr

/-- `Order.status` enum from `models/Order.js`. -/
inductive OStatus
  | pending
  | confirmed
  | shipped
  | delivered
  | completed
  | cancelled
  | disputed
deriving DecidableEq, Repr

/-- `Order.paymentStatus` enum from `models/Order.js`. -/
inductive PayStatus
  | pending
  | escrowed
  | released
  | refunded
deriving DecidableEq, Repr

/-- The `ratings` subdocument on Product and User: `{average, count}`. -/
structure Ratings where
  average : ℚ
  count : ℕ
deriving DecidableEq, Repr

/-- A Product document (`models/Product.js`), restricted to the fields the
escrow/rating subsystem reads or writes. -/
structure Product where
  id : ProductId
  sellerId : UserId
  price : ℚ
  status : PStatus
  buyerId : Option UserId
  ratings : Ratings
deriving DecidableEq, Repr

/-- The `shippingAddress` subdocument of an Order. -/
structure ShippingAddress where
  street : String
  city : String
  state : String
  zipCode : String
deriving DecidableEq, Repr

/-- An Order document (`models/Order.js`). -/
structure Order where
  id : OrderId
  productId : ProductId
  buyerId : UserId
  sellerId : UserId
  amount : ℚ
  status : OStatus
  paymentStatus : PayStatus
  shippingAddress : ShippingAddress
  trackingNumber : Option String
deriving DecidableEq, Repr

/-- A Review document: references one product, one author, and denormalizes
the product's seller at creation time. -/
structure Review where
  id : ReviewId
  productId : ProductId
  userId : UserId
  sellerId : UserId
  rating : ℕ
  comment : String
deriving DecidableEq, Repr

/-- User roles as used by the auth middleware and admin routes. -/
inductive Role
  | buyer
  | seller
  | both
  | admin
deriving DecidableEq, Repr

/-- A User document, restricted to the fields the subsystem touches. -/
structure User where
  id : UserId
  role : Role
  ratings : Ratings
deriving DecidableEq, Repr

/-- The four collections of the document store. -/
structure MState where
  products : List Product
  orders : List Order
  reviews : List Review
  users : List User
deriving DecidableEq, Repr

/-- An HTTP error response: status code plus the `{message}` payload. -/
structure ErrResp where
  code : ℕ
  message : String
deriving DecidableEq, Repr

/-! ## Generic collection operations (the persistence layer) -/

/-- `Model.findByIdAndUpdate(k, f)` / find-then-`save()`: update the document
whose key is `k`.  Ids are unique in the store (see `WF`), so at most one
document is affected. -/
def updateById {α : Type} (key : α → ℕ) (k : ℕ) (f : α → α) (l : List α) : List α :=
  l.map fun a => if key a = k then f a else a

/-- `Model.findById(k)`. -/
def findById {α : Type} (key : α → ℕ) (k : ℕ) (l : List α) : Option α :=
  l.find? fun a => key a == k

/-- A fresh document id, strictly larger than every id in the collection
(models MongoDB generating a fresh `_id` on insert). -/
def freshKey {α : Type} (key : α → ℕ) (l : List α) : ℕ :=
  l.foldr (fun a m => max (key a + 1) m) 0

/-- Well-formedness: ids are unique in each collection (the database's
unique-`_id` index). -/
def WF (s : MState) : Prop :=
  (s.products.map fun p => p.id).Nodup ∧
  (s.orders.map fun o => o.id).Nodup ∧
  (s.reviews.map fun r => r.id).Nodup ∧
  (s.users.map fun u => u.id).Nodup

def findProduct (s : MState) (pid : ProductId) : Option Product :=
  findById (fun p => p.id) pid s.products

def findOrder (s : MState) (oid : OrderId) : Option Order :=
  findById (fun o => o.id) oid s.orders

def findReview (s : MState) (rid : ReviewId) : Option Review :=
  findById (fun r => r.id) rid s.reviews

def freshOrderId (s : MState) : OrderId :=
  freshKey (fun o => o.id) s.orders

def freshReviewId (s : MState) : ReviewId :=
  freshKey (fun r => r.id) s.reviews

/-- Run a route handler: the new state on success, the old state if the
handler returned an error (error paths in the source never write). -/
def runState (r : Except ErrResp MState) (s : MState) : MState :=
  match r with
  | .ok s' => s'
  | .error _ => s

/-! ## Listing lifecycle (`routes/products`) -/

/-- `POST /api/products/:id/purchase`. -/
def purchase (caller : UserId) (pid : ProductId) (s : MState) : Except ErrResp MState :=
  match findProduct s pid with
  | none => .error ⟨404, "Product not found"⟩
  | some product =>
    if product.status ≠ PStatus.available then
      .error ⟨400, "Product is not available for purchase"⟩
    else if product.sellerId = caller then
      .error ⟨400, "You cannot purchase your own product"⟩
    else
      .ok { s with products := (updateById (fun p => p.id) pid
              (fun p => { p with status := PStatus.pending, buyerId := some caller })
              s.products) }

/-- `POST /api/products/:id/confirm-purchase`. -/
def confirmPurchase (caller : UserId) (pid : ProductId) (s : MState) : Except ErrResp MState :=
  match findProduct s pid with
  | none => .error ⟨404, "Product not found"⟩
  | some product =>
    if product.buyerId ≠ some caller then
      .error ⟨403, "Access denied. You are not the buyer."⟩
    else if product.status ≠ PStatus.pending then
      .error ⟨400, "Product is not in pending status"⟩
    else
      .ok { s with products := (updateById (fun p => p.id) pid
              (fun p => { p with status := PStatus.sold }) s.products) }

/-- `POST /api/products/:id/cancel-purchase`. -/
def cancelPurchase (caller : UserId) (pid : ProductId) (s : MState) : Except ErrResp MState :=
  match findProduct s pid with
  | none => .error ⟨404, "Product not found"⟩
  | some product =>
    if ¬ (product.buyerId = some caller) ∧ ¬ (product.sellerId = caller) then
      .error ⟨403, "Access denied."⟩
    else if product.status ≠ PStatus.pending then
      .error ⟨400, "Product is not in pending status"⟩
    else
      .ok { s with products := (updateById (fun p => p.id) pid
              (fun p => { p with status := PStatus.available, buyerId := none }) s.products) }

/-- `DELETE /api/products/:id` (the `routes/products` handler: `auth`,
`isSeller`, ownership, then the sold-or-pending conflict check). -/
def deleteProduct (caller : User) (pid : ProductId) (s : MState) : Except ErrResp MState :=
  if caller.role ≠ Role.seller ∧ caller.role ≠ Role.both then
    .error ⟨403, "Access denied. Seller role required."⟩
  else
    match findProduct s pid with
    | none => .error ⟨404, "Product not found"⟩
    | some product =>
      if product.sellerId ≠ caller.id then
        .error ⟨403, "Access denied. You are not the owner."⟩
      else if product.status = PStatus.sold ∨ product.status = PStatus.pending then
        .error ⟨400, "Cannot delete a sold or pending product"⟩
      else
        .ok { s with products := s.products.filter fun p => p.id != pid }

/-- `deleteProduct` from `controllers/productController.js`: ownership check
only, no status check before `findByIdAndDelete`. -/
def mbDeleteProduct (caller : UserId) (pid : ProductId) (s : MState) : Except ErrResp MState :=
  match findProduct s pid with
  | none => .error ⟨404, "Product not found"⟩
  | some product =>
    if product.sellerId ≠ caller then
      .error ⟨403, "Access denied"⟩
    else
      .ok { s with products := s.products.filter fun p => p.id != pid }

/-! ## Order lifecycle (`routes/orders`) -/

/-- `POST /orders`: create an order in escrow.  Validation requires the
shipping-address fields to be non-empty.  Note that the product is marked
`pending` but its `buyerId` is *not* written. -/
def createOrder (caller : UserId) (pid : ProductId) (addr : ShippingAddress)
    (s : MState) : Except ErrResp MState :=
  if addr.street = "" ∨ addr.city = "" ∨ addr.state = "" ∨ addr.zipCode = "" then
    .error ⟨400, "Validation failed"⟩
  else
    match findProduct s pid with
    | none => .error ⟨404, "Product not found"⟩
    | some product =>
      if product.status ≠ PStatus.available then
        .error ⟨400, "Product is not available"⟩
      else if product.sellerId = caller then
        .error ⟨400, "Cannot purchase your own product"⟩
      else
        let order : Order :=
          { id := freshOrderId s
            productId := pid
            buyerId := caller
            sellerId := product.sellerId
            amount := product.price
            status := OStatus.pending
            paymentStatus := PayStatus.escrowed
            shippingAddress := addr
            trackingNumber := none }
        .ok { s with
          orders := s.orders ++ [order]
          products := (updateById (fun p => p.id) pid
            (fun p => { p with status := PStatus.pending }) s.products) }

/-- `PUT /orders/:id/ship`. -/
def shipOrder (caller : UserId) (oid : OrderId) (tracking : Option String)
    (s : MState) : Except ErrResp MState :=
  match findOrder s oid with
  | none => .error ⟨404, "Order not found"⟩
  | some order =>
    if order.sellerId ≠ caller then
      .error ⟨403, "Access denied"⟩
    else if order.status ≠ OStatus.confirmed then
      .error ⟨400, "Order must be confirmed before shipping"⟩
    else
      .ok { s with orders := (updateById (fun o => o.id) oid
              (fun o => { o with
                status := OStatus.shipped
                trackingNumber := match tracking with
                  | some t => some t
                  | none => o.trackingNumber }) s.orders) }

/-- `PUT /orders/:id/confirm-delivery`: complete the order, release the
escrowed payment and mark the linked product sold. -/
def confirmDelivery (caller : UserId) (oid : OrderId) (s : MState) : Except ErrResp MState :=
  match findOrder s oid with
  | none => .error ⟨404, "Order not found"⟩
  | some order =>
    if order.buyerId ≠ caller then
      .error ⟨403, "Access denied"⟩
    else if order.status ≠ OStatus.shipped then
      .error ⟨400, "Order must be shipped before delivery confirmation"⟩
    else
      .ok { s with
        orders := (updateById (fun o => o.id) oid
          (fun o => { o with status := OStatus.completed, paymentStatus := PayStatus.released })
          s.orders)
        products := (updateById (fun p => p.id) order.productId
          (fun p => { p with status := PStatus.sold }) s.products) }

/-- `PUT /orders/:id/cancel`: refund and re-list the product.  Note that the
product's `buyerId` is *not* cleared, only its status is written. -/
def cancelOrder (caller : UserId) (oid : OrderId) (s : MState) : Except ErrResp MState :=
  match findOrder s oid with
  | none => .error ⟨404, "Order not found"⟩
  | some order =>
    if ¬ (order.buyerId = caller ∨ order.sellerId = caller) then
      .error ⟨403, "Access denied"⟩
    else if order.status = OStatus.completed ∨ order.status = OStatus.cancelled then
      .error ⟨400, "Cannot cancel this order"⟩
    else
      .ok { s with
        orders := (updateById (fun o => o.id) oid
          (fun o => { o with status := OStatus.cancelled, paymentStatus := PayStatus.refunded })
          s.orders)
        products := (updateById (fun p => p.id) order.productId
          (fun p => { p with status := PStatus.available }) s.products) }

/-! ## Rating aggregation and review routes (`routes/reviews`) -/

/-- The recomputation both helpers share: sum the ratings of the given review
set; average is `total / count` when the set is non-empty and `0` otherwise. -/
def aggregate (reviews : List Review) : Ratings :=
  let total : ℚ := (reviews.map fun r => (r.rating : ℚ)).sum
  { average := if reviews.length > 0 then total / reviews.length else 0
    count := reviews.length }

/-- `updateProductRatings(productId)`: recompute the product's aggregate from
all reviews with that `productId`. -/
def updateProductRatings (pid : ProductId) (s : MState) : MState :=
  { s with products := (updateById (fun p => p.id) pid
      (fun p => { p with ratings := aggregate (s.reviews.filter fun r => r.productId == pid) })
      s.products) }

/-- `updateSellerRatings(sellerId)`: recompute the seller's aggregate from
all reviews with that `sellerId`. -/
def updateSellerRatings (uid : UserId) (s : MState) : MState :=
  { s with users := (updateById (fun u => u.id) uid
      (fun u => { u with ratings := aggregate (s.reviews.filter fun r => r.sellerId == uid) })
      s.users) }

/-- `POST /api/reviews`: create a review; only the buyer of a sold product
may review it, at most once; then recompute both aggregates. -/
def createReview (caller : UserId) (pid : ProductId) (rating : ℕ) (comment : String)
    (s : MState) : Except ErrResp MState :=
  if ¬ (1 ≤ rating ∧ rating ≤ 5) then
    .error ⟨400, "Validation failed"⟩
  else if ¬ (1 ≤ comment.length ∧ comment.length ≤ 500) then
    .error ⟨400, "Validation failed"⟩
  else
    match findProduct s pid with
    | none => .error ⟨404, "Product not found"⟩
    | some product =>
      if product.buyerId ≠ some caller then
        .error ⟨403, "You can only review products you have purchased"⟩
      else if product.status ≠ PStatus.sold then
        .error ⟨400, "You can only review completed purchases"⟩
      else if (s.reviews.find? fun r => r.productId == pid && r.userId == caller).isSome then
        .error ⟨400, "You have already reviewed this product"⟩
      else
        let review : Review :=
          { id := freshReviewId s
            productId := pid
            userId := caller
            sellerId := product.sellerId
            rating := rating
            comment := comment }
        let s1 : MState := { s with reviews := s.reviews ++ [review] }
        .ok (updateSellerRatings product.sellerId (updateProductRatings pid s1))

/-- Validation for the optional `rating` field of a review update. -/
def ratingOk : Option ℕ → Bool
  | some n => decide (1 ≤ n ∧ n ≤ 5)
  | none => true

/-- Validation for the optional `comment` field of a review update. -/
def commentOk : Option String → Bool
  | some c => decide (1 ≤ c.length ∧ c.length ≤ 500)
  | none => true

/-- `PUT /api/reviews/:id`: author-only update; aggregates are recomputed only
when a rating was supplied. -/
def updateReview (caller : UserId) (rid : ReviewId) (rating : Option ℕ)
    (comment : Option String) (s : MState) : Except ErrResp MState :=
  if ratingOk rating && commentOk comment then
    match findReview s rid with
    | none => .error ⟨404, "Review not found"⟩
    | some review =>
      if review.userId ≠ caller then
        .error ⟨403, "Access denied. You are not the owner."⟩
      else
        let s1 : MState := { s with reviews := (updateById (fun r => r.id) rid
          (fun r => { r with rating := rating.getD r.rating, comment := comment.getD r.comment })
          s.reviews) }
        match rating with
        | some _ => .ok (updateSellerRatings review.sellerId
            (updateProductRatings review.productId s1))
        | none => .ok s1
  else
    .error ⟨400, "Validation failed"⟩

/-- `DELETE /api/reviews/:id`: author-only delete, then recompute both
aggregates (scoped by the deleted review's `productId` / `sellerId`). -/
def deleteReview (caller : UserId) (rid : ReviewId) (s : MState) : Except ErrResp MState :=
  match findReview s rid with
  | none => .error ⟨404, "Review not found"⟩
  | some review =>
    if review.userId ≠ caller then
      .error ⟨403, "Access denied. You are not the owner."⟩
    else
      let s1 : MState := { s with reviews := s.reviews.filter fun r => r.id != rid }
      .ok (updateSellerRatings review.sellerId (updateProductRatings review.productId s1))

/-! ## Admin user deletion (`routes/admin`) -/

/-- `DELETE /admin/users/:id`: delete the user, their products (by
`sellerId`) and the reviews they authored (by `userId`).  No rating
recomputation is triggered. -/
def adminDeleteUser (caller : User) (uid : UserId) (s : MState) : Except ErrResp MState :=
  if caller.role ≠ Role.admin then
    .error ⟨403, "Access denied. Admin role required."⟩
  else
    match findById (fun u => u.id) uid s.users with
    | none => .error ⟨404, "User not found"⟩
    | some target =>
      if target.role = Role.admin ∧ target.id ≠ caller.id then
        .error ⟨403, "Cannot delete other admin users"⟩
      else
        .ok { s with
          products := s.products.filter fun p => p.sellerId != uid
          reviews := s.reviews.filter fun r => r.userId != uid
          users := s.users.filter fun u => u.id != uid }

/-! ## Operation alphabets for sequences of requests -/

/-- One request against the order endpoints. -/
inductive OrderOp
  | create (caller : UserId) (pid : ProductId) (addr : ShippingAddress)
  | ship (caller : UserId) (oid : OrderId) (tracking : Option String)
  | confirm (caller : UserId) (oid : OrderId)
  | cancel (caller : UserId) (oid : OrderId)

/-- Apply one order request; a rejected request leaves the store unchanged. -/
def applyOrderOp (op : OrderOp) (s : MState) : MState :=
  match op with
  | .create caller pid addr => runState (createOrder caller pid addr s) s
  | .ship caller oid tracking => runState (shipOrder caller oid tracking s) s
  | .confirm caller oid => runState (confirmDelivery caller oid s) s
  | .cancel caller oid => runState (cancelOrder caller oid s) s

def applyOrderOps (ops : List OrderOp) (s : MState) : MState :=
  ops.foldl (fun s op => applyOrderOp op s) s

/-- One request against the review endpoints. -/
inductive ReviewOp
  | create (caller : UserId) (pid : ProductId) (rating : ℕ) (comment : String)
  | update (caller : UserId) (rid : ReviewId) (rating : Option ℕ) (comment : Option String)
  | del (caller : UserId) (rid : ReviewId)

/-- Apply one review request; a rejected request leaves the store unchanged. -/
def applyReviewOp (op : ReviewOp) (s : MState) : MState :=
  match op with
  | .create caller pid rating comment => runState (createReview caller pid rating comment s) s
  | .update caller rid rating comment => runState (updateReview caller rid rating comment s) s
  | .del caller rid => runState (deleteReview caller rid s) s

def applyReviewOps (ops : List ReviewOp) (s : MState) : MState :=
  ops.foldl (fun s op => applyReviewOp op s) s

/-! ## Basic lemmas about the persistence layer -/

theorem mem_updateById {α : Type} {key : α → ℕ} {k : ℕ} {f : α → α} {l : List α} {x : α}
    (hx : x ∈ updateById key k f l) :
    ∃ a ∈ l, x = if key a = k then f a else a := by
  rcases List.mem_map.mp hx with ⟨a, ha, rfl⟩
  exact ⟨a, ha, rfl⟩

theorem map_key_updateById {α : Type} (key : α → ℕ) (k : ℕ) (f : α → α) (l : List α)
    (hf : ∀ a, key (f a) = key a) :
    (updateById key k f l).map key = l.map key := by
  simp only [updateById, List.map_map]
  exact List.map_congr_left fun a _ => by
    by_cases h : key a = k <;> simp [Function.comp, h, hf]

theorem findById_updateById {α : Type} (key : α → ℕ) (k : ℕ) (f : α → α)
    (hf : ∀ a, key (f a) = key a) (l : List α) :
    findById key k (updateById key k f l) = (findById key k l).map f := by
  induction l with
  | nil => rfl
  | cons a t ih =>
    simp only [findById, updateById, List.map_cons] at *
    by_cases h : key a = k
    · rw [if_pos h, List.find?_cons_of_pos _ (by simp [hf, h]),
          List.find?_cons_of_pos _ (by simp [h])]
      rfl
    · rw [if_neg h, List.find?_cons_of_neg _ (by simp [h]),
          List.find?_cons_of_neg _ (by simp [h])]
      exact ih

theorem findById_some {α : Type} {key : α → ℕ} {k : ℕ} {l : List α} {a : α}
    (h : findById key k l = some a) : a ∈ l ∧ key a = k := by
  refine ⟨List.mem_of_find?_eq_some h, ?_⟩
  have := List.find?_some h
  simpa using this

theorem findById_updateById_some {α : Type} {key : α → ℕ} {k : ℕ} {f : α → α}
    {l : List α} {a : α} (hf : ∀ x, key (f x) = key x) (h : findById key k l = some a) :
    findById key k (updateById key k f l) = some (f a) := by
  rw [findById_updateById key k f hf l, h]
  rfl

theorem key_inj {α : Type} {key : α → ℕ} {l : List α}
    (hnd : (l.map key).Nodup) {p q : α} (hp : p ∈ l) (hq : q ∈ l)
    (hk : key p = key q) : p = q :=
  List.inj_on_of_nodup_map hnd hp hq hk

theorem lt_freshKey {α : Type} (key : α → ℕ) {l : List α} {a : α} (h : a ∈ l) :
    key a < freshKey key l := by
  induction l with
  | nil => cases h
  | cons b t ih =>
    simp only [freshKey, List.foldr_cons]
    rcases List.mem_cons.mp h with rfl | h
    · exact lt_of_lt_of_le (Nat.lt_succ_self _) (le_max_left _ _)
    · exact lt_of_lt_of_le (ih h) (le_max_right _ _)

theorem nodup_filter_map {α : Type} {key : α → ℕ} {l : List α} (q : α → Bool)
    (h : (l.map key).Nodup) : ((l.filter q).map key).Nodup :=
  List.Nodup.sublist (List.Sublist.map key (List.filter_sublist l)) h

theorem nodup_append_fresh {α : Type} {key : α → ℕ} {l : List α} {x : α}
    (h : (l.map key).Nodup) (hx : ∀ a ∈ l, key a ≠ key x) :
    ((l ++ [x]).map key).Nodup := by
  have hmem : key x ∉ l.map key := by
    intro hmem
    rcases List.mem_map.mp hmem with ⟨a, ha, hk⟩
    exact hx a ha hk
  simp [List.nodup_append, h, hmem]

theorem runState_error {r : Except ErrResp MState} {s : MState} (h : ∀ s', r ≠ .ok s') :
    runState r s = s := by
  cases r with
  | ok s' => exact absurd rfl (h s')
  | error e => rfl

theorem runState_ok {s s' : MState} {r : Except ErrResp MState} (h : r = .ok s') :
    runState r s = s' := by
  subst h; rfl

/-! ## C1: the listing invariant `status == available ⇔ buyerId == null` -/

/-- The listing invariant from the spec: a product is `available` exactly when
it has no buyer (equivalently, `buyerId` is non-null iff the product is
`pending` or `sold`). -/
def ListingInv (s : MState) : Prop :=
  ∀ p ∈ s.products, (p.status = PStatus.available ↔ p.buyerId = none)

instance : DecidableEq (Except ErrResp MState) := fun a b =>
  match a, b with
  | .ok x, .ok y => decidable_of_iff (x = y) (by simp)
  | .error x, .error y => decidable_of_iff (x = y) (by simp)
  | .ok _, .error _ => isFalse (by simp)
  | .error _, .ok _ => isFalse (by simp)

instance (s : MState) : Decidable (ListingInv s) := by
  unfold ListingInv; infer_instance

theorem listingInv_purchase {caller : UserId} {pid : ProductId} {s s' : MState}
    (hinv : ListingInv s) (h : purchase caller pid s = Except.ok s') : ListingInv s' := by
  rcases hfind : findProduct s pid with _ | product
  · simp only [purchase, hfind] at h
    exact Except.noConfusion h
  · simp only [purchase, hfind] at h
    split_ifs at h with h1 h2
    · have hs := Except.ok.inj h
      subst hs
      intro p' hp'
      rcases mem_updateById hp' with ⟨p, hp, rfl⟩
      by_cases hid : p.id = pid
      · simp [hid]
      · simpa [hid] using hinv p hp

theorem listingInv_confirmPurchase {caller : UserId} {pid : ProductId} {s s' : MState}
    (hnd : (s.products.map fun p => p.id).Nodup)
    (hinv : ListingInv s) (h : confirmPurchase caller pid s = Except.ok s') : ListingInv s' := by
  rcases hfind : findProduct s pid with _ | product
  · simp only [confirmPurchase, hfind] at h
    exact Except.noConfusion h
  · simp only [confirmPurchase, hfind] at h
    split_ifs at h with h1 h2
    · have hs := Except.ok.inj h
      subst hs
      push_neg at h1
      intro p' hp'
      rcases mem_updateById hp' with ⟨p, hp, rfl⟩
      by_cases hid : p.id = pid
      · have hpq : p = product := by
          rcases findById_some hfind with ⟨hqmem, hqid⟩
          exact key_inj hnd hp hqmem (by rw [hid, hqid])
        subst hpq
        simp [hid, h1]
      · simpa [hid] using hinv p hp

theorem listingInv_cancelPurchase {caller : UserId} {pid : ProductId} {s s' : MState}
    (hinv : ListingInv s) (h : cancelPurchase caller pid s = Except.ok s') : ListingInv s' := by
  rcases hfind : findProduct s pid with _ | product
  · simp only [cancelPurchase, hfind] at h
    exact Except.noConfusion h
  · simp only [cancelPurchase, hfind] at h
    split_ifs at h with h1 h2
    · have hs := Except.ok.inj h
      subst hs
      intro p' hp'
      rcases mem_updateById hp' with ⟨p, hp, rfl⟩
      by_cases hid : p.id = pid
      · simp [hid]
      · simpa [hid] using hinv p hp

/-- **C1** (amended): the invariant `status == available ⇔ buyerId == null` is
preserved by the three product-lifecycle endpoints (purchase,
confirm-purchase, cancel-purchase); the order endpoints do not maintain it
(see the counterexample: order creation marks the product `pending` without
writing `buyerId`, and order cancellation restores `available` without
clearing it). -/
theorem c1_listing_invariant_product_ops (caller : UserId) (pid : ProductId)
    (s s' : MState) (hnd : (s.products.map fun p => p.id).Nodup)
    (hinv : ListingInv s)
    (h : purchase caller pid s = Except.ok s' ∨ confirmPurchase caller pid s = Except.ok s' ∨
         cancelPurchase caller pid s = Except.ok s') :
    ListingInv s' := by
  rcases h with h | h | h
  · exact listingInv_purchase hinv h
  · exact listingInv_confirmPurchase hnd hinv h
  · exact listingInv_cancelPurchase hinv h

/-- A freshly listed product and an empty store around it. -/
def exProduct1 : Product :=
  { id := 1, sellerId := 10, price := 100, status := PStatus.available,
    buyerId := none, ratings := { average := 0, count := 0 } }

def exAddr : ShippingAddress :=
  { street := "1 Main St", city := "Springfield", state := "IL", zipCode := "62704" }

def exState1 : MState := { products := [exProduct1], orders := [], reviews := [], users := [] }

/-- The store after buyer `20` opens an order on product `1`: the product is
`pending` but `buyerId` is still `null`. -/
def exState1' : MState :=
  { products := [{ exProduct1 with status := PStatus.pending }]
    orders := [{ id := 0, productId := 1, buyerId := 20, sellerId := 10, amount := 100,
                 status := OStatus.pending, paymentStatus := PayStatus.escrowed,
                 shippingAddress := exAddr, trackingNumber := none }]
    reviews := []
    users := [] }

/-- **C1** (counterexample): order creation breaks the invariant.  In a store
satisfying the invariant, buyer `20` successfully creates an order for the
available product `1`; afterwards the product has `status = pending` while
`buyerId` is still `null`, so `status == available ⇔ buyerId == null` fails. -/
theorem c1_counterexample :
    ListingInv exState1 ∧
    createOrder 20 1 exAddr exState1 = Except.ok exState1' ∧
    ¬ ListingInv exState1' := by
  refine ⟨by decide, by decide, by decide⟩

/-- Witness for `c1_listing_invariant_product_ops` at a concrete purchase. -/
def c1wState : MState :=
  { products := [{ id := 2, sellerId := 11, price := 5, status := PStatus.available,
                   buyerId := none, ratings := { average := 0, count := 0 } }]
    orders := [], reviews := [], users := [] }

def c1wStateAfter : MState :=
  { products := [{ id := 2, sellerId := 11, price := 5, status := PStatus.pending,
                   buyerId := some 21, ratings := { average := 0, count := 0 } }]
    orders := [], reviews := [], users := [] }

theorem c1_listing_invariant_product_ops_witness : ListingInv c1wStateAfter :=
  c1_listing_invariant_product_ops 21 2 c1wState c1wStateAfter (by decide) (by decide)
    (Or.inl (by decide))


/-! ## C6: purchase succeeds exactly on an available, non-own product -/

/-- **C6**: `purchase` succeeds exactly when the product is `available` and
the caller is not its seller, and then sets `status = pending` and
`buyerId = caller` (touching no other collection); whenever the product is
not available it fails with the conflict response, when it is available but
seller-owned it fails with the invalid-operation response, and every failure
leaves the store unchanged. -/
theorem c6_purchase_characterization (caller : UserId) (pid : ProductId) (s : MState)
    (p : Product) (hp : findProduct s pid = some p) :
    ((∃ s', purchase caller pid s = Except.ok s') ↔
        (p.status = PStatus.available ∧ p.sellerId ≠ caller)) ∧
    (∀ s', purchase caller pid s = Except.ok s' →
        findProduct s' pid = some { p with status := PStatus.pending, buyerId := some caller } ∧
        s'.orders = s.orders ∧ s'.reviews = s.reviews ∧ s'.users = s.users) ∧
    (p.status ≠ PStatus.available →
        purchase caller pid s = Except.error ⟨400, "Product is not available for purchase"⟩) ∧
    (p.status = PStatus.available → p.sellerId = caller →
        purchase caller pid s = Except.error ⟨400, "You cannot purchase your own product"⟩) ∧
    ((¬ ∃ s', purchase caller pid s = Except.ok s') →
        runState (purchase caller pid s) s = s) := by
  by_cases h1 : p.status = PStatus.available
  · by_cases h2 : p.sellerId = caller
    · have he : purchase caller pid s =
          Except.error ⟨400, "You cannot purchase your own product"⟩ := by
        simp [purchase, hp, h1, h2]
      refine ⟨⟨?_, ?_⟩, ?_, ?_, ?_, ?_⟩
      · rintro ⟨s', hs⟩; rw [he] at hs; exact Except.noConfusion hs
      · rintro ⟨-, hne⟩; exact absurd h2 hne
      · intro s' hs; rw [he] at hs; exact Except.noConfusion hs
      · intro hne; exact absurd h1 hne
      · intro _ _; exact he
      · intro _; rw [he]; rfl
    · have he : purchase caller pid s = Except.ok
          { s with products := (updateById (fun q => q.id) pid
              (fun q => { q with status := PStatus.pending, buyerId := some caller })
              s.products) } := by
        simp [purchase, hp, h1, h2]
      refine ⟨⟨fun _ => ⟨h1, h2⟩, fun _ => ⟨_, he⟩⟩, ?_, ?_, ?_, ?_⟩
      · intro s' hs
        rw [he] at hs
        have hs' := (Except.ok.inj hs).symm
        subst hs'
        exact ⟨findById_updateById_some (fun x => rfl) hp, rfl, rfl, rfl⟩
      · intro hne; exact absurd h1 hne
      · intro _ hsc; exact absurd hsc h2
      · intro hno; exact absurd ⟨_, he⟩ hno
  · have he : purchase caller pid s =
        Except.error ⟨400, "Product is not available for purchase"⟩ := by
      simp [purchase, hp, h1]
    refine ⟨⟨?_, ?_⟩, ?_, ?_, ?_, ?_⟩
    · rintro ⟨s', hs⟩; rw [he] at hs; exact Except.noConfusion hs
    · rintro ⟨hav, -⟩; exact absurd hav h1
    · intro s' hs; rw [he] at hs; exact Except.noConfusion hs
    · intro _; exact he
    · intro hav _; exact absurd hav h1
    · intro _; rw [he]; rfl

def c6wProduct : Product :=
  { id := 3, sellerId := 12, price := 7, status := PStatus.available,
    buyerId := none, ratings := { average := 0, count := 0 } }

def c6wState : MState := { products := [c6wProduct], orders := [], reviews := [], users := [] }

/-- Witness for `c6_purchase_characterization` on a concrete store. -/
theorem c6_purchase_characterization_witness :
    (∃ s', purchase 22 3 c6wState = Except.ok s') ↔
      (c6wProduct.status = PStatus.available ∧ c6wProduct.sellerId ≠ 22) :=
  (c6_purchase_characterization 22 3 c6wState c6wProduct (by decide)).1

/-! ## C3: confirm-delivery -/

/-- **C3**: `confirm-delivery` succeeds exactly when the caller is the
order buyer and the order is `shipped`; on success the order becomes
`completed` with payment `released` and the linked product becomes `sold`,
all in the same step; a failed call leaves the store untouched. -/
theorem c3_confirm_delivery_characterization (caller : UserId) (oid : OrderId) (s : MState)
    (o : Order) (ho : findOrder s oid = some o) :
    ((∃ s', confirmDelivery caller oid s = Except.ok s') ↔
        (caller = o.buyerId ∧ o.status = OStatus.shipped)) ∧
    (∀ s', confirmDelivery caller oid s = Except.ok s' →
        findOrder s' oid =
          some { o with status := OStatus.completed, paymentStatus := PayStatus.released } ∧
        (∀ p, findProduct s o.productId = some p →
          findProduct s' o.productId = some { p with status := PStatus.sold }) ∧
        s'.reviews = s.reviews ∧ s'.users = s.users) ∧
    ((¬ ∃ s', confirmDelivery caller oid s = Except.ok s') →
        runState (confirmDelivery caller oid s) s = s) := by
  by_cases h1 : o.buyerId = caller
  · by_cases h2 : o.status = OStatus.shipped
    · have he : confirmDelivery caller oid s = Except.ok
          { s with
            orders := (updateById (fun q => q.id) oid
              (fun q => { q with status := OStatus.completed,
                                 paymentStatus := PayStatus.released }) s.orders)
            products := (updateById (fun q => q.id) o.productId
              (fun q => { q with status := PStatus.sold }) s.products) } := by
        simp [confirmDelivery, ho, h1, h2]
      refine ⟨⟨fun _ => ⟨h1.symm, h2⟩, fun _ => ⟨_, he⟩⟩, ?_, ?_⟩
      · intro s' hs
        rw [he] at hs
        have hs' := (Except.ok.inj hs).symm
        subst hs'
        refine ⟨?_, ?_, rfl, rfl⟩
        · exact findById_updateById_some (fun x => rfl) ho
        · intro p hpr
          exact findById_updateById_some (fun x => rfl) hpr
      · intro hno; exact absurd ⟨_, he⟩ hno
    · have he : confirmDelivery caller oid s =
          Except.error ⟨400, "Order must be shipped before delivery confirmation"⟩ := by
        simp [confirmDelivery, ho, h1, h2]
      refine ⟨⟨?_, ?_⟩, ?_, ?_⟩
      · rintro ⟨s', hs⟩; rw [he] at hs; exact Except.noConfusion hs
      · rintro ⟨-, hsh⟩; exact absurd hsh h2
      · intro s' hs; rw [he] at hs; exact Except.noConfusion hs
      · intro _; rw [he]; rfl
  · have he : confirmDelivery caller oid s = Except.error ⟨403, "Access denied"⟩ := by
      simp [confirmDelivery, ho, h1]
    refine ⟨⟨?_, ?_⟩, ?_, ?_⟩
    · rintro ⟨s', hs⟩; rw [he] at hs; exact Except.noConfusion hs
    · rintro ⟨hb, -⟩; exact absurd hb.symm h1
    · intro s' hs; rw [he] at hs; exact Except.noConfusion hs
    · intro _; rw [he]; rfl

def c3wProduct : Product :=
  { id := 5, sellerId := 14, price := 50, status := PStatus.pending,
    buyerId := some 24, ratings := { average := 0, count := 0 } }

def c3wOrder : Order :=
  { id := 8, productId := 5, buyerId := 24, sellerId := 14, amount := 50,
    status := OStatus.shipped, paymentStatus := PayStatus.escrowed,
    shippingAddress := exAddr, trackingNumber := some "TRK1" }

def c3wState : MState :=
  { products := [c3wProduct], orders := [c3wOrder], reviews := [], users := [] }

/-- Witness for `c3_confirm_delivery_characterization` on a concrete store. -/
theorem c3_confirm_delivery_characterization_witness :
    (∃ s', confirmDelivery 24 8 c3wState = Except.ok s') ↔
      ((24 : UserId) = c3wOrder.buyerId ∧ c3wOrder.status = OStatus.shipped) :=
  (c3_confirm_delivery_characterization 24 8 c3wState c3wOrder (by decide)).1

/-! ## C4: order cancel -/

/-- **C4** (amended): `cancel` by the order buyer or seller succeeds exactly
when the order is neither `completed` nor `cancelled`, and then sets the
order `cancelled` with payment `refunded` and the linked product back to
`available` — but it leaves the product record otherwise unchanged, so the
product `buyerId` is NOT cleared; any other caller, or a terminal order,
is rejected with the store untouched. -/
theorem c4_cancel_order_characterization (caller : UserId) (oid : OrderId) (s : MState)
    (o : Order) (ho : findOrder s oid = some o) :
    ((∃ s', cancelOrder caller oid s = Except.ok s') ↔
        ((o.buyerId = caller ∨ o.sellerId = caller) ∧
         o.status ≠ OStatus.completed ∧ o.status ≠ OStatus.cancelled)) ∧
    (∀ s', cancelOrder caller oid s = Except.ok s' →
        findOrder s' oid =
          some { o with status := OStatus.cancelled, paymentStatus := PayStatus.refunded } ∧
        (∀ p, findProduct s o.productId = some p →
          findProduct s' o.productId = some { p with status := PStatus.available })) ∧
    ((¬ ∃ s', cancelOrder caller oid s = Except.ok s') →
        runState (cancelOrder caller oid s) s = s) := by
  by_cases h1 : o.buyerId = caller ∨ o.sellerId = caller
  · by_cases h2 : o.status = OStatus.completed ∨ o.status = OStatus.cancelled
    · have he : cancelOrder caller oid s = Except.error ⟨400, "Cannot cancel this order"⟩ := by
        simp [cancelOrder, ho, h1, h2]
      refine ⟨⟨?_, ?_⟩, ?_, ?_⟩
      · rintro ⟨s', hs⟩; rw [he] at hs; exact Except.noConfusion hs
      · rintro ⟨-, hc, hd⟩
        rcases h2 with h2 | h2
        · exact absurd h2 hc
        · exact absurd h2 hd
      · intro s' hs; rw [he] at hs; exact Except.noConfusion hs
      · intro _; rw [he]; rfl
    · push_neg at h2
      have he : cancelOrder caller oid s = Except.ok
          { s with
            orders := (updateById (fun q => q.id) oid
              (fun q => { q with status := OStatus.cancelled,
                                 paymentStatus := PayStatus.refunded }) s.orders)
            products := (updateById (fun q => q.id) o.productId
              (fun q => { q with status := PStatus.available }) s.products) } := by
        simp [cancelOrder, ho, h1, h2.1, h2.2]
      refine ⟨⟨fun _ => ⟨h1, h2.1, h2.2⟩, fun _ => ⟨_, he⟩⟩, ?_, ?_⟩
      · intro s' hs
        rw [he] at hs
        have hs' := (Except.ok.inj hs).symm
        subst hs'
        refine ⟨?_, ?_⟩
        · exact findById_updateById_some (fun x => rfl) ho
        · intro p hpr
          exact findById_updateById_some (fun x => rfl) hpr
      · intro hno; exact absurd ⟨_, he⟩ hno
  · have he : cancelOrder caller oid s = Except.error ⟨403, "Access denied"⟩ := by
      simp only [cancelOrder, ho]
      rw [if_pos h1]
    refine ⟨⟨?_, ?_⟩, ?_, ?_⟩
    · rintro ⟨s', hs⟩; rw [he] at hs; exact Except.noConfusion hs
    · rintro ⟨hcall, -⟩; exact absurd hcall h1
    · intro s' hs; rw [he] at hs; exact Except.noConfusion hs
    · intro _; rw [he]; rfl

def c4Product : Product :=
  { id := 4, sellerId := 13, price := 9, status := PStatus.pending,
    buyerId := some 23, ratings := { average := 0, count := 0 } }

def c4Order : Order :=
  { id := 7, productId := 4, buyerId := 23, sellerId := 13, amount := 9,
    status := OStatus.pending, paymentStatus := PayStatus.escrowed,
    shippingAddress := exAddr, trackingNumber := none }

def c4State : MState :=
  { products := [c4Product], orders := [c4Order], reviews := [], users := [] }

def c4StateAfter : MState :=
  { products := [{ c4Product with status := PStatus.available }]
    orders := [{ c4Order with status := OStatus.cancelled, paymentStatus := PayStatus.refunded }]
    reviews := [], users := [] }

/-- **C4** (counterexample): the buyer cancels a pending order; the cancel
succeeds and re-lists the product, but the product `buyerId` is still the
buyer, not `null` — the claim that cancel clears `buyerId` is false. -/
theorem c4_counterexample :
    cancelOrder 23 7 c4State = Except.ok c4StateAfter ∧
    findProduct c4StateAfter 4 = some { c4Product with status := PStatus.available } ∧
    ({ c4Product with status := PStatus.available } : Product).buyerId = some 23 := by
  refine ⟨by decide, by decide, by decide⟩

def c4wState : MState :=
  { products := [{ id := 6, sellerId := 15, price := 3, status := PStatus.pending,
                   buyerId := none, ratings := { average := 0, count := 0 } }]
    orders := [{ id := 9, productId := 6, buyerId := 25, sellerId := 15, amount := 3,
                 status := OStatus.pending, paymentStatus := PayStatus.escrowed,
                 shippingAddress := exAddr, trackingNumber := none }]
    reviews := [], users := [] }

def c4wOrder : Order :=
  { id := 9, productId := 6, buyerId := 25, sellerId := 15, amount := 3,
    status := OStatus.pending, paymentStatus := PayStatus.escrowed,
    shippingAddress := exAddr, trackingNumber := none }

/-- Witness for `c4_cancel_order_characterization` on a concrete store. -/
theorem c4_cancel_order_characterization_witness :
    (∃ s', cancelOrder 15 9 c4wState = Except.ok s') ↔
      ((c4wOrder.buyerId = 15 ∨ c4wOrder.sellerId = 15) ∧
       c4wOrder.status ≠ OStatus.completed ∧ c4wOrder.status ≠ OStatus.cancelled) :=
  (c4_cancel_order_characterization 15 9 c4wState c4wOrder (by decide)).1


/-! ## C5: the `confirmed` status is unreachable for created orders -/

/-- Every order in the store carrying the given id is still `pending` or
already `cancelled` — in particular it was never `confirmed`. -/
def orderStaysUnconfirmed (oid : OrderId) (s : MState) : Prop :=
  ∀ o ∈ s.orders, o.id = oid → (o.status = OStatus.pending ∨ o.status = OStatus.cancelled)

instance (oid : OrderId) (s : MState) : Decidable (orderStaysUnconfirmed oid s) := by
  unfold orderStaysUnconfirmed; infer_instance

theorem staysUnconfirmed_createOrder {oid : OrderId} {caller : UserId} {pid : ProductId}
    {addr : ShippingAddress} {s s' : MState}
    (hinv : orderStaysUnconfirmed oid s) (h : createOrder caller pid addr s = Except.ok s') :
    orderStaysUnconfirmed oid s' := by
  rcases hfind : findProduct s pid with _ | product
  · simp only [createOrder, hfind] at h
    split_ifs at h
  · simp only [createOrder, hfind] at h
    split_ifs at h
    have hs := Except.ok.inj h
    subst hs
    intro o ho hid
    rcases List.mem_append.mp ho with ho | ho
    · exact hinv o ho hid
    · rw [List.mem_singleton] at ho
      subst ho
      exact Or.inl rfl

theorem staysUnconfirmed_shipOrder {oid : OrderId} {caller : UserId} {oid' : OrderId}
    {trk : Option String} {s s' : MState}
    (hinv : orderStaysUnconfirmed oid s) (h : shipOrder caller oid' trk s = Except.ok s') :
    orderStaysUnconfirmed oid s' := by
  rcases hfind : findOrder s oid' with _ | o₀
  · simp only [shipOrder, hfind] at h
    exact Except.noConfusion h
  · simp only [shipOrder, hfind] at h
    split_ifs at h with h1 h2
    push_neg at h2
    have hs := Except.ok.inj h
    subst hs
    rcases findById_some hfind with ⟨hmem, hkey⟩
    intro o' ho' hid
    rcases mem_updateById ho' with ⟨p, hp, rfl⟩
    by_cases hpk : p.id = oid'
    · rw [if_pos hpk] at hid ⊢
      have hpid : p.id = oid := hid
      rcases hinv o₀ hmem (by rw [hkey, ← hpid, hpk]) with hc | hc <;>
        rw [h2] at hc <;> exact OStatus.noConfusion hc
    · rw [if_neg hpk] at hid ⊢
      exact hinv p hp hid

theorem staysUnconfirmed_confirmDelivery {oid : OrderId} {caller : UserId} {oid' : OrderId}
    {s s' : MState}
    (hinv : orderStaysUnconfirmed oid s) (h : confirmDelivery caller oid' s = Except.ok s') :
    orderStaysUnconfirmed oid s' := by
  rcases hfind : findOrder s oid' with _ | o₀
  · simp only [confirmDelivery, hfind] at h
    exact Except.noConfusion h
  · simp only [confirmDelivery, hfind] at h
    split_ifs at h with h1 h2
    push_neg at h2
    have hs := Except.ok.inj h
    subst hs
    rcases findById_some hfind with ⟨hmem, hkey⟩
    intro o' ho' hid
    rcases mem_updateById ho' with ⟨p, hp, rfl⟩
    by_cases hpk : p.id = oid'
    · rw [if_pos hpk] at hid ⊢
      have hpid : p.id = oid := hid
      rcases hinv o₀ hmem (by rw [hkey, ← hpid, hpk]) with hc | hc <;>
        rw [h2] at hc <;> exact OStatus.noConfusion hc
    · rw [if_neg hpk] at hid ⊢
      exact hinv p hp hid

theorem staysUnconfirmed_cancelOrder {oid : OrderId} {caller : UserId} {oid' : OrderId}
    {s s' : MState}
    (hinv : orderStaysUnconfirmed oid s) (h : cancelOrder caller oid' s = Except.ok s') :
    orderStaysUnconfirmed oid s' := by
  rcases hfind : findOrder s oid' with _ | o₀
  · simp only [cancelOrder, hfind] at h
    exact Except.noConfusion h
  · simp only [cancelOrder, hfind] at h
    split_ifs at h with h1 h2
    have hs := Except.ok.inj h
    subst hs
    intro o' ho' hid
    rcases mem_updateById ho' with ⟨p, hp, rfl⟩
    by_cases hpk : p.id = oid'
    · rw [if_pos hpk] at hid ⊢
      exact Or.inr rfl
    · rw [if_neg hpk] at hid ⊢
      exact hinv p hp hid

theorem staysUnconfirmed_step (oid : OrderId) (op : OrderOp) (s : MState)
    (hinv : orderStaysUnconfirmed oid s) :
    orderStaysUnconfirmed oid (applyOrderOp op s) := by
  cases op with
  | create caller pid addr =>
    simp only [applyOrderOp]
    cases hr : createOrder caller pid addr s with
    | ok s' => simp only [runState]; exact staysUnconfirmed_createOrder hinv hr
    | error e => simp only [runState]; exact hinv
  | ship caller oid' trk =>
    simp only [applyOrderOp]
    cases hr : shipOrder caller oid' trk s with
    | ok s' => simp only [runState]; exact staysUnconfirmed_shipOrder hinv hr
    | error e => simp only [runState]; exact hinv
  | confirm caller oid' =>
    simp only [applyOrderOp]
    cases hr : confirmDelivery caller oid' s with
    | ok s' => simp only [runState]; exact staysUnconfirmed_confirmDelivery hinv hr
    | error e => simp only [runState]; exact hinv
  | cancel caller oid' =>
    simp only [applyOrderOp]
    cases hr : cancelOrder caller oid' s with
    | ok s' => simp only [runState]; exact staysUnconfirmed_cancelOrder hinv hr
    | error e => simp only [runState]; exact hinv

theorem staysUnconfirmed_steps (oid : OrderId) (ops : List OrderOp) (s : MState)
    (hinv : orderStaysUnconfirmed oid s) :
    orderStaysUnconfirmed oid (applyOrderOps ops s) := by
  induction ops generalizing s with
  | nil => exact hinv
  | cons op t ih => exact ih _ (staysUnconfirmed_step oid op s hinv)

/-- **C5**: an order created by `POST /orders` starts `pending`, and no
sequence of requests against the order endpoints (create, ship,
confirm-delivery, cancel — in particular the three operations exposed for an
existing order) ever moves it to `confirmed`; its status stays in
`{pending, cancelled}`, so `shipped` and `completed` are unreachable as well
and every `ship` attempt on it fails. -/
theorem c5_order_confirmed_unreachable (caller : UserId) (pid : ProductId)
    (addr : ShippingAddress) (s s1 : MState)
    (h : createOrder caller pid addr s = Except.ok s1) (ops : List OrderOp) :
    orderStaysUnconfirmed (freshOrderId s) (applyOrderOps ops s1) ∧
    (∀ o ∈ (applyOrderOps ops s1).orders, o.id = freshOrderId s →
        o.status ≠ OStatus.confirmed ∧ o.status ≠ OStatus.shipped ∧
        o.status ≠ OStatus.completed) ∧
    (∀ c trk s₂, shipOrder c (freshOrderId s) trk (applyOrderOps ops s1) ≠ Except.ok s₂) := by
  have h0 : orderStaysUnconfirmed (freshOrderId s) s1 := by
    rcases hfind : findProduct s pid with _ | product
    · simp only [createOrder, hfind] at h
      split_ifs at h
    · simp only [createOrder, hfind] at h
      split_ifs at h
      have hs1 := Except.ok.inj h
      subst hs1
      intro o ho hid
      rcases List.mem_append.mp ho with ho | ho
      · exact absurd hid (Nat.ne_of_lt (lt_freshKey (fun q => q.id) ho))
      · rw [List.mem_singleton] at ho
        subst ho
        exact Or.inl rfl
  have hinv := staysUnconfirmed_steps (freshOrderId s) ops s1 h0
  refine ⟨hinv, ?_, ?_⟩
  · intro o ho hid
    rcases hinv o ho hid with hp | hp <;>
      exact ⟨by rw [hp]; decide, by rw [hp]; decide, by rw [hp]; decide⟩
  · intro c trk s₂ hs
    rcases hfind : findOrder (applyOrderOps ops s1) (freshOrderId s) with _ | o₀
    · simp only [shipOrder, hfind] at hs
      exact Except.noConfusion hs
    · simp only [shipOrder, hfind] at hs
      split_ifs at hs with hh1 hh2
      push_neg at hh2
      rcases findById_some hfind with ⟨hmem, hid⟩
      rcases hinv o₀ hmem hid with hp | hp <;> rw [hp] at hh2 <;> exact OStatus.noConfusion hh2

/-- Witness for `c5_order_confirmed_unreachable`: the concrete order creation
of `exState1`, followed by the empty request sequence. -/
theorem c5_order_confirmed_unreachable_witness :
    orderStaysUnconfirmed (freshOrderId exState1) (applyOrderOps [] exState1') ∧
    (∀ o ∈ (applyOrderOps [] exState1').orders, o.id = freshOrderId exState1 →
        o.status ≠ OStatus.confirmed ∧ o.status ≠ OStatus.shipped ∧
        o.status ≠ OStatus.completed) ∧
    (∀ c trk s₂,
        shipOrder c (freshOrderId exState1) trk (applyOrderOps [] exState1') ≠ Except.ok s₂) :=
  c5_order_confirmed_unreachable 20 1 exAddr exState1 exState1' (by decide) []

/-! ## C7: payment status tracks the order status -/

/-- The payment invariant from the spec: `released` implies `completed`,
`refunded` implies `cancelled`. -/
def PaymentInv (s : MState) : Prop :=
  ∀ o ∈ s.orders,
    (o.paymentStatus = PayStatus.released → o.status = OStatus.completed) ∧
    (o.paymentStatus = PayStatus.refunded → o.status = OStatus.cancelled)

instance (s : MState) : Decidable (PaymentInv s) := by
  unfold PaymentInv; infer_instance

theorem nodup_map_key_updateById {α : Type} {key : α → ℕ} {k : ℕ} {f : α → α} {l : List α}
    (hf : ∀ a, key (f a) = key a) (h : (l.map key).Nodup) :
    ((updateById key k f l).map key).Nodup := by
  rw [map_key_updateById key k f l hf]
  exact h

theorem ordersNodup_createOrder {caller : UserId} {pid : ProductId} {addr : ShippingAddress}
    {s s' : MState} (hnd : (s.orders.map fun o => o.id).Nodup)
    (h : createOrder caller pid addr s = Except.ok s') :
    (s'.orders.map fun o => o.id).Nodup := by
  rcases hfind : findProduct s pid with _ | product
  · simp only [createOrder, hfind] at h
    split_ifs at h
  · simp only [createOrder, hfind] at h
    split_ifs at h
    have hs := Except.ok.inj h
    subst hs
    exact nodup_append_fresh hnd fun a ha => Nat.ne_of_lt (lt_freshKey (fun q => q.id) ha)

theorem ordersNodup_shipOrder {caller : UserId} {oid : OrderId} {trk : Option String}
    {s s' : MState} (hnd : (s.orders.map fun o => o.id).Nodup)
    (h : shipOrder caller oid trk s = Except.ok s') :
    (s'.orders.map fun o => o.id).Nodup := by
  rcases hfind : findOrder s oid with _ | o₀
  · simp only [shipOrder, hfind] at h
    exact Except.noConfusion h
  · simp only [shipOrder, hfind] at h
    split_ifs at h
    have hs := Except.ok.inj h
    subst hs
    exact nodup_map_key_updateById (fun a => rfl) hnd

theorem ordersNodup_confirmDelivery {caller : UserId} {oid : OrderId} {s s' : MState}
    (hnd : (s.orders.map fun o => o.id).Nodup)
    (h : confirmDelivery caller oid s = Except.ok s') :
    (s'.orders.map fun o => o.id).Nodup := by
  rcases hfind : findOrder s oid with _ | o₀
  · simp only [confirmDelivery, hfind] at h
    exact Except.noConfusion h
  · simp only [confirmDelivery, hfind] at h
    split_ifs at h
    have hs := Except.ok.inj h
    subst hs
    exact nodup_map_key_updateById (fun a => rfl) hnd

theorem ordersNodup_cancelOrder {caller : UserId} {oid : OrderId} {s s' : MState}
    (hnd : (s.orders.map fun o => o.id).Nodup)
    (h : cancelOrder caller oid s = Except.ok s') :
    (s'.orders.map fun o => o.id).Nodup := by
  rcases hfind : findOrder s oid with _ | o₀
  · simp only [cancelOrder, hfind] at h
    exact Except.noConfusion h
  · simp only [cancelOrder, hfind] at h
    split_ifs at h
    have hs := Except.ok.inj h
    subst hs
    exact nodup_map_key_updateById (fun a => rfl) hnd

theorem paymentInv_createOrder {caller : UserId} {pid : ProductId} {addr : ShippingAddress}
    {s s' : MState} (hinv : PaymentInv s)
    (h : createOrder caller pid addr s = Except.ok s') : PaymentInv s' := by
  rcases hfind : findProduct s pid with _ | product
  · simp only [createOrder, hfind] at h
    split_ifs at h
  · simp only [createOrder, hfind] at h
    split_ifs at h
    have hs := Except.ok.inj h
    subst hs
    intro o ho
    rcases List.mem_append.mp ho with ho | ho
    · exact hinv o ho
    · rw [List.mem_singleton] at ho
      subst ho
      exact ⟨fun hr => PayStatus.noConfusion hr, fun hr => PayStatus.noConfusion hr⟩

theorem paymentInv_shipOrder {caller : UserId} {oid : OrderId} {trk : Option String}
    {s s' : MState} (hnd : (s.orders.map fun o => o.id).Nodup) (hinv : PaymentInv s)
    (h : shipOrder caller oid trk s = Except.ok s') : PaymentInv s' := by
  rcases hfind : findOrder s oid with _ | o₀
  · simp only [shipOrder, hfind] at h
    exact Except.noConfusion h
  · simp only [shipOrder, hfind] at h
    split_ifs at h with h1 h2
    push_neg at h2
    have hs := Except.ok.inj h
    subst hs
    rcases findById_some hfind with ⟨hmem, hkey⟩
    intro o' ho'
    rcases mem_updateById ho' with ⟨p, hp, rfl⟩
    by_cases hpk : p.id = oid
    · rw [if_pos hpk]
      have hpo : p = o₀ := key_inj hnd hp hmem (by rw [hpk, hkey])
      constructor
      · intro hrel
        have hc := (hinv p hp).1 hrel
        rw [hpo, h2] at hc
        exact OStatus.noConfusion hc
      · intro href
        have hc := (hinv p hp).2 href
        rw [hpo, h2] at hc
        exact OStatus.noConfusion hc
    · rw [if_neg hpk]
      exact hinv p hp

theorem paymentInv_confirmDelivery {caller : UserId} {oid : OrderId} {s s' : MState}
    (hinv : PaymentInv s) (h : confirmDelivery caller oid s = Except.ok s') : PaymentInv s' := by
  rcases hfind : findOrder s oid with _ | o₀
  · simp only [confirmDelivery, hfind] at h
    exact Except.noConfusion h
  · simp only [confirmDelivery, hfind] at h
    split_ifs at h
    have hs := Except.ok.inj h
    subst hs
    intro o' ho'
    rcases mem_updateById ho' with ⟨p, hp, rfl⟩
    by_cases hpk : p.id = oid
    · rw [if_pos hpk]
      exact ⟨fun _ => rfl, fun hr => PayStatus.noConfusion hr⟩
    · rw [if_neg hpk]
      exact hinv p hp

theorem paymentInv_cancelOrder {caller : UserId} {oid : OrderId} {s s' : MState}
    (hinv : PaymentInv s) (h : cancelOrder caller oid s = Except.ok s') : PaymentInv s' := by
  rcases hfind : findOrder s oid with _ | o₀
  · simp only [cancelOrder, hfind] at h
    exact Except.noConfusion h
  · simp only [cancelOrder, hfind] at h
    split_ifs at h
    have hs := Except.ok.inj h
    subst hs
    intro o' ho'
    rcases mem_updateById ho' with ⟨p, hp, rfl⟩
    by_cases hpk : p.id = oid
    · rw [if_pos hpk]
      exact ⟨fun hr => PayStatus.noConfusion hr, fun _ => rfl⟩
    · rw [if_neg hpk]
      exact hinv p hp

theorem paymentInv_step (op : OrderOp) (s : MState)
    (hnd : (s.orders.map fun o => o.id).Nodup) (hinv : PaymentInv s) :
    ((applyOrderOp op s).orders.map fun o => o.id).Nodup ∧ PaymentInv (applyOrderOp op s) := by
  cases op with
  | create caller pid addr =>
    simp only [applyOrderOp]
    cases hr : createOrder caller pid addr s with
    | ok s' =>
      simp only [runState]
      exact ⟨ordersNodup_createOrder hnd hr, paymentInv_createOrder hinv hr⟩
    | error e => simp only [runState]; exact ⟨hnd, hinv⟩
  | ship caller oid trk =>
    simp only [applyOrderOp]
    cases hr : shipOrder caller oid trk s with
    | ok s' =>
      simp only [runState]
      exact ⟨ordersNodup_shipOrder hnd hr, paymentInv_shipOrder hnd hinv hr⟩
    | error e => simp only [runState]; exact ⟨hnd, hinv⟩
  | confirm caller oid =>
    simp only [applyOrderOp]
    cases hr : confirmDelivery caller oid s with
    | ok s' =>
      simp only [runState]
      exact ⟨ordersNodup_confirmDelivery hnd hr, paymentInv_confirmDelivery hinv hr⟩
    | error e => simp only [runState]; exact ⟨hnd, hinv⟩
  | cancel caller oid =>
    simp only [applyOrderOp]
    cases hr : cancelOrder caller oid s with
    | ok s' =>
      simp only [runState]
      exact ⟨ordersNodup_cancelOrder hnd hr, paymentInv_cancelOrder hinv hr⟩
    | error e => simp only [runState]; exact ⟨hnd, hinv⟩

/-- **C7**: in any store with unique order ids satisfying the payment
invariant (`released → completed`, `refunded → cancelled` — e.g. the empty
store), every sequence of requests against the four order endpoints
preserves it, so it holds for every reachable order. -/
theorem c7_payment_status_invariant (s : MState)
    (hnd : (s.orders.map fun o => o.id).Nodup) (hinv : PaymentInv s)
    (ops : List OrderOp) :
    PaymentInv (applyOrderOps ops s) := by
  suffices h : ((applyOrderOps ops s).orders.map fun o => o.id).Nodup ∧
      PaymentInv (applyOrderOps ops s) from h.2
  induction ops generalizing s with
  | nil => exact ⟨hnd, hinv⟩
  | cons op t ih =>
    have hstep := paymentInv_step op s hnd hinv
    exact ih _ hstep.1 hstep.2

/-- Witness for `c7_payment_status_invariant`: a create followed by a cancel
on the concrete store. -/
theorem c7_payment_status_invariant_witness :
    PaymentInv (applyOrderOps [OrderOp.create 20 1 exAddr, OrderOp.cancel 20 0] exState1) :=
  c7_payment_status_invariant exState1 (by decide) (by decide)
    [OrderOp.create 20 1 exAddr, OrderOp.cancel 20 0]


/-! ## Rating-aggregation lemmas (C2, C8) -/

/-- The aggregate only depends on the multiset of ratings. -/
theorem aggregate_congr {l l' : List Review}
    (h : l.map (fun r => r.rating) = l'.map (fun r => r.rating)) :
    aggregate l = aggregate l' := by
  have hlen : l.length = l'.length := by
    have := congrArg List.length h
    simpa using this
  have hsum : (l.map fun r => (r.rating : ℚ)).sum = (l'.map fun r => (r.rating : ℚ)).sum := by
    have hmap : l.map (fun r => (r.rating : ℚ)) = l'.map (fun r => (r.rating : ℚ)) := by
      have := congrArg (List.map (fun n : ℕ => (n : ℚ))) h
      simpa [List.map_map, Function.comp] using this
    rw [hmap]
  simp only [aggregate, hlen, hsum]

/-- Filtering commutes with an id-keyed update whose target is not selected
by the filter (before or after the update). -/
theorem filter_updateById_eq {α : Type} (key : α → ℕ) (k : ℕ) (f : α → α) (q : α → Bool)
    (l : List α) (h : ∀ a ∈ l, key a = k → q a = false ∧ q (f a) = false) :
    (updateById key k f l).filter q = l.filter q := by
  induction l with
  | nil => rfl
  | cons a t ih =>
    have ht : ∀ b ∈ t, key b = k → q b = false ∧ q (f b) = false :=
      fun b hb => h b (List.mem_cons_of_mem a hb)
    simp only [updateById, List.map_cons] at *
    by_cases hk : key a = k
    · rcases h a (List.mem_cons_self a t) hk with ⟨h1, h2⟩
      rw [if_pos hk, List.filter_cons, List.filter_cons, h1, h2]
      simp only [Bool.false_eq_true, if_false]
      exact ih ht
    · rw [if_neg hk, List.filter_cons, List.filter_cons]
      by_cases hq : q a = true
      · rw [hq]
        simp only [if_true]
        rw [ih ht]
      · rw [Bool.not_eq_true] at hq
        rw [hq]
        simp only [Bool.false_eq_true, if_false]
        exact ih ht

/-- Filtering after an id-keyed update that preserves both the filter and the
rating yields the same ratings. -/
theorem filter_map_rating_updateById (k : ℕ) (f : Review → Review) (q : Review → Bool)
    (l : List Review) (hq : ∀ a, q (f a) = q a) (hr : ∀ a, (f a).rating = a.rating) :
    ((updateById (fun r => r.id) k f l).filter q).map (fun r => r.rating) =
      (l.filter q).map (fun r => r.rating) := by
  induction l with
  | nil => rfl
  | cons a t ih =>
    simp only [updateById, List.map_cons] at *
    by_cases hk : a.id = k
    · rw [if_pos hk, List.filter_cons, List.filter_cons, hq a]
      by_cases hqa : q a = true
      · rw [hqa]
        simp only [if_true, List.map_cons, hr a, ih]
      · rw [Bool.not_eq_true] at hqa
        rw [hqa]
        simp only [Bool.false_eq_true, if_false]
        exact ih
    · rw [if_neg hk, List.filter_cons, List.filter_cons]
      by_cases hqa : q a = true
      · rw [hqa]
        simp only [if_true, List.map_cons, ih]
      · rw [Bool.not_eq_true] at hqa
        rw [hqa]
        simp only [Bool.false_eq_true, if_false]
        exact ih

/-- Removing elements the filter would not keep anyway does not change the
filtered list. -/
theorem filter_filter_of_imp {α : Type} (q w : α → Bool) (l : List α)
    (h : ∀ a ∈ l, q a = true → w a = true) :
    (l.filter w).filter q = l.filter q := by
  rw [List.filter_filter]
  refine List.filter_congr fun a ha => ?_
  by_cases hq : q a = true
  · rw [hq, h a ha hq]
    rfl
  · rw [Bool.not_eq_true] at hq
    rw [hq]
    simp

/-! ## C2: the ratings aggregates always match the review set -/

/-- The aggregate-consistency invariant from the spec: every product's
`ratings` equals the aggregate of all reviews with its `productId`, and every
user's `ratings` equals the aggregate of all reviews with its id as
`sellerId` (average `0` when there are none). -/
def RatingsInv (s : MState) : Prop :=
  (∀ p ∈ s.products, p.ratings = aggregate (s.reviews.filter fun r => r.productId == p.id)) ∧
  (∀ u ∈ s.users, u.ratings = aggregate (s.reviews.filter fun r => r.sellerId == u.id))

instance (s : MState) : Decidable (RatingsInv s) := by
  unfold RatingsInv; infer_instance

/-- After recomputing the aggregates of product `pid` and seller `uid` from
the current review set, the invariant holds provided every *other* product
and user already agreed with that review set. -/
theorem ratingsInv_afterRecompute (s : MState) (pid : ProductId) (uid : UserId)
    (hprod : ∀ p ∈ s.products, p.id ≠ pid →
        p.ratings = aggregate (s.reviews.filter fun r => r.productId == p.id))
    (husers : ∀ u ∈ s.users, u.id ≠ uid →
        u.ratings = aggregate (s.reviews.filter fun r => r.sellerId == u.id)) :
    RatingsInv (updateSellerRatings uid (updateProductRatings pid s)) := by
  constructor
  · intro p' hp'
    have hp'' : p' ∈ updateById (fun p => p.id) pid
        (fun p => { p with ratings := aggregate (s.reviews.filter fun r => r.productId == pid) })
        s.products := hp'
    rcases mem_updateById hp'' with ⟨p, hp, rfl⟩
    show (if p.id = pid then _ else p).ratings =
      aggregate (s.reviews.filter fun r => r.productId == (if p.id = pid then _ else p).id)
    by_cases hid : p.id = pid
    · rw [if_pos hid]
      dsimp only
      rw [hid]
    · rw [if_neg hid]
      exact hprod p hp hid
  · intro u' hu'
    have hu'' : u' ∈ updateById (fun u => u.id) uid
        (fun u => { u with ratings := aggregate (s.reviews.filter fun r => r.sellerId == uid) })
        s.users := hu'
    rcases mem_updateById hu'' with ⟨u, hu, rfl⟩
    show (if u.id = uid then _ else u).ratings =
      aggregate (s.reviews.filter fun r => r.sellerId == (if u.id = uid then _ else u).id)
    by_cases hid : u.id = uid
    · rw [if_pos hid]
      dsimp only
      rw [hid]
    · rw [if_neg hid]
      exact husers u hu hid

theorem ratingsInv_createReview {caller : UserId} {pid : ProductId} {rating : ℕ}
    {comment : String} {s s' : MState}
    (hinv : RatingsInv s) (h : createReview caller pid rating comment s = Except.ok s') :
    RatingsInv s' := by
  rcases hfind : findProduct s pid with _ | product
  · simp only [createReview, hfind] at h
    split_ifs at h
  · simp only [createReview, hfind] at h
    split_ifs at h
    have hs := Except.ok.inj h
    subst hs
    apply ratingsInv_afterRecompute
    · intro p hp hid
      dsimp only
      rw [List.filter_append]
      simp only [List.filter_cons, List.filter_nil]
      have hne : ¬ ((pid == p.id) = true) := by
        simp only [beq_iff_eq]
        exact fun hh => hid hh.symm
      rw [if_neg hne, List.append_nil]
      exact hinv.1 p hp
    · intro u hu hid
      dsimp only
      rw [List.filter_append]
      simp only [List.filter_cons, List.filter_nil]
      have hne : ¬ ((product.sellerId == u.id) = true) := by
        simp only [beq_iff_eq]
        exact fun hh => hid hh.symm
      rw [if_neg hne, List.append_nil]
      exact hinv.2 u hu

theorem ratingsInv_updateReview {caller : UserId} {rid : ReviewId} {rating : Option ℕ}
    {comment : Option String} {s s' : MState}
    (hnd : (s.reviews.map fun r => r.id).Nodup) (hinv : RatingsInv s)
    (h : updateReview caller rid rating comment s = Except.ok s') :
    RatingsInv s' := by
  rcases hfindr : findReview s rid with _ | review
  · simp only [updateReview, hfindr] at h
    split_ifs at h
  · simp only [updateReview, hfindr] at h
    split_ifs at h
    rcases findById_some hfindr with ⟨hrevmem, hrevid⟩
    cases rating with
    | none =>
      have hs := Except.ok.inj h
      subst hs
      constructor
      · intro p hp
        rw [hinv.1 p hp]
        exact aggregate_congr
          (filter_map_rating_updateById rid
            (fun r => { r with rating := none.getD r.rating, comment := comment.getD r.comment })
            (fun r => r.productId == p.id) s.reviews (fun a => rfl) (fun a => rfl)).symm
      · intro u hu
        rw [hinv.2 u hu]
        exact aggregate_congr
          (filter_map_rating_updateById rid
            (fun r => { r with rating := none.getD r.rating, comment := comment.getD r.comment })
            (fun r => r.sellerId == u.id) s.reviews (fun a => rfl) (fun a => rfl)).symm
    | some n =>
      have hs := Except.ok.inj h
      subst hs
      apply ratingsInv_afterRecompute
      · intro p hp hid
        dsimp only
        rw [hinv.1 p hp]
        congr 1
        refine (filter_updateById_eq _ _ _ _ _ fun a ha hak => ?_).symm
        have haq : a = review := key_inj hnd ha hrevmem (by rw [hak, hrevid])
        subst haq
        have hfalse : (a.productId == p.id) = false := by
          simp only [beq_eq_false_iff_ne, ne_eq]
          exact fun hh => hid hh.symm
        exact ⟨hfalse, hfalse⟩
      · intro u hu hid
        dsimp only
        rw [hinv.2 u hu]
        congr 1
        refine (filter_updateById_eq _ _ _ _ _ fun a ha hak => ?_).symm
        have haq : a = review := key_inj hnd ha hrevmem (by rw [hak, hrevid])
        subst haq
        have hfalse : (a.sellerId == u.id) = false := by
          simp only [beq_eq_false_iff_ne, ne_eq]
          exact fun hh => hid hh.symm
        exact ⟨hfalse, hfalse⟩

theorem ratingsInv_deleteReview {caller : UserId} {rid : ReviewId} {s s' : MState}
    (hnd : (s.reviews.map fun r => r.id).Nodup) (hinv : RatingsInv s)
    (h : deleteReview caller rid s = Except.ok s') :
    RatingsInv s' := by
  rcases hfindr : findReview s rid with _ | review
  · simp only [deleteReview, hfindr] at h
    exact Except.noConfusion h
  · simp only [deleteReview, hfindr] at h
    split_ifs at h
    have hs := Except.ok.inj h
    subst hs
    rcases findById_some hfindr with ⟨hrevmem, hrevid⟩
    apply ratingsInv_afterRecompute
    · intro p hp hid
      dsimp only
      rw [hinv.1 p hp]
      congr 1
      refine (filter_filter_of_imp _ _ _ fun a ha haq => ?_).symm
      rw [bne_iff_ne, ne_eq]
      intro hak
      have haqr : a = review := key_inj hnd ha hrevmem (by rw [hak, hrevid])
      rw [haqr, beq_iff_eq] at haq
      exact hid haq.symm
    · intro u hu hid
      dsimp only
      rw [hinv.2 u hu]
      congr 1
      refine (filter_filter_of_imp _ _ _ fun a ha haq => ?_).symm
      rw [bne_iff_ne, ne_eq]
      intro hak
      have haqr : a = review := key_inj hnd ha hrevmem (by rw [hak, hrevid])
      rw [haqr, beq_iff_eq] at haq
      exact hid haq.symm

theorem reviewsNodup_createReview {caller : UserId} {pid : ProductId} {rating : ℕ}
    {comment : String} {s s' : MState}
    (hnd : (s.reviews.map fun r => r.id).Nodup)
    (h : createReview caller pid rating comment s = Except.ok s') :
    (s'.reviews.map fun r => r.id).Nodup := by
  rcases hfind : findProduct s pid with _ | product
  · simp only [createReview, hfind] at h
    split_ifs at h
  · simp only [createReview, hfind] at h
    split_ifs at h
    have hs := Except.ok.inj h
    subst hs
    exact nodup_append_fresh hnd fun a ha => Nat.ne_of_lt (lt_freshKey (fun q => q.id) ha)

theorem reviewsNodup_updateReview {caller : UserId} {rid : ReviewId} {rating : Option ℕ}
    {comment : Option String} {s s' : MState}
    (hnd : (s.reviews.map fun r => r.id).Nodup)
    (h : updateReview caller rid rating comment s = Except.ok s') :
    (s'.reviews.map fun r => r.id).Nodup := by
  rcases hfindr : findReview s rid with _ | review
  · simp only [updateReview, hfindr] at h
    split_ifs at h
  · simp only [updateReview, hfindr] at h
    split_ifs at h
    cases rating with
    | none =>
      have hs := Except.ok.inj h
      subst hs
      exact nodup_map_key_updateById (fun a => rfl) hnd
    | some n =>
      have hs := Except.ok.inj h
      subst hs
      exact nodup_map_key_updateById (fun a => rfl) hnd

theorem reviewsNodup_deleteReview {caller : UserId} {rid : ReviewId} {s s' : MState}
    (hnd : (s.reviews.map fun r => r.id).Nodup)
    (h : deleteReview caller rid s = Except.ok s') :
    (s'.reviews.map fun r => r.id).Nodup := by
  rcases hfindr : findReview s rid with _ | review
  · simp only [deleteReview, hfindr] at h
    exact Except.noConfusion h
  · simp only [deleteReview, hfindr] at h
    split_ifs at h
    have hs := Except.ok.inj h
    subst hs
    exact nodup_filter_map _ hnd

theorem ratingsInv_step (op : ReviewOp) (s : MState)
    (hnd : (s.reviews.map fun r => r.id).Nodup) (hinv : RatingsInv s) :
    ((applyReviewOp op s).reviews.map fun r => r.id).Nodup ∧ RatingsInv (applyReviewOp op s) := by
  cases op with
  | create caller pid rating comment =>
    simp only [applyReviewOp]
    cases hr : createReview caller pid rating comment s with
    | ok s' =>
      simp only [runState]
      exact ⟨reviewsNodup_createReview hnd hr, ratingsInv_createReview hinv hr⟩
    | error e => simp only [runState]; exact ⟨hnd, hinv⟩
  | update caller rid rating comment =>
    simp only [applyReviewOp]
    cases hr : updateReview caller rid rating comment s with
    | ok s' =>
      simp only [runState]
      exact ⟨reviewsNodup_updateReview hnd hr, ratingsInv_updateReview hnd hinv hr⟩
    | error e => simp only [runState]; exact ⟨hnd, hinv⟩
  | del caller rid =>
    simp only [applyReviewOp]
    cases hr : deleteReview caller rid s with
    | ok s' =>
      simp only [runState]
      exact ⟨reviewsNodup_deleteReview hnd hr, ratingsInv_deleteReview hnd hinv hr⟩
    | error e => simp only [runState]; exact ⟨hnd, hinv⟩

/-- **C2**: in any store with unique review ids whose aggregates agree with
the review set (e.g. a store with empty aggregates and no reviews), every
sequence of review create / update / delete requests preserves the
agreement: each product's `ratings.average` is the arithmetic mean of the
ratings of the reviews with its `productId` (0 when there are none, in
particular after deleting the only review) and `ratings.count` their number,
and likewise for each seller user keyed by `sellerId`. -/
theorem c2_ratings_aggregate_invariant (s : MState)
    (hnd : (s.reviews.map fun r => r.id).Nodup) (hinv : RatingsInv s)
    (ops : List ReviewOp) :
    RatingsInv (applyReviewOps ops s) := by
  suffices h : ((applyReviewOps ops s).reviews.map fun r => r.id).Nodup ∧
      RatingsInv (applyReviewOps ops s) from h.2
  induction ops generalizing s with
  | nil => exact ⟨hnd, hinv⟩
  | cons op t ih =>
    have hstep := ratingsInv_step op s hnd hinv
    exact ih _ hstep.1 hstep.2

def c2wProduct : Product :=
  { id := 40, sellerId := 41, price := 20, status := PStatus.sold,
    buyerId := some 42, ratings := { average := 0, count := 0 } }

def c2wSeller : User := { id := 41, role := Role.seller, ratings := { average := 0, count := 0 } }

def c2wState : MState :=
  { products := [c2wProduct], orders := [], reviews := [], users := [c2wSeller] }

/-- Witness for `c2_ratings_aggregate_invariant`: buyer `42` reviews the sold
product, edits the rating, and deletes the review again. -/
theorem c2_ratings_aggregate_invariant_witness :
    RatingsInv (applyReviewOps
      [ReviewOp.create 42 40 4 "nice", ReviewOp.update 42 0 (some 5) none, ReviewOp.del 42 0]
      c2wState) :=
  c2_ratings_aggregate_invariant c2wState (by decide) (by decide)
    [ReviewOp.create 42 40 4 "nice", ReviewOp.update 42 0 (some 5) none, ReviewOp.del 42 0]


/-! ## C8: review creation preconditions and the one-review-per-pair rule -/

/-- At most one review exists per `(productId, userId)` pair. -/
def AtMostOnePerPair (s : MState) : Prop :=
  ∀ r1 ∈ s.reviews, ∀ r2 ∈ s.reviews,
    r1.productId = r2.productId → r1.userId = r2.userId → r1 = r2

instance (s : MState) : Decidable (AtMostOnePerPair s) := by
  unfold AtMostOnePerPair; infer_instance

/-- When a review for the `(productId, userId)` pair already exists,
`POST /api/reviews` always returns an error. -/
theorem createReview_dup_fails {caller : UserId} {pid : ProductId} (rating : ℕ)
    (comment : String) {s : MState} {r : Review}
    (hrmem : r ∈ s.reviews) (h1 : r.productId = pid) (h2 : r.userId = caller) :
    ∃ e, createReview caller pid rating comment s = Except.error e := by
  rcases hfind : findProduct s pid with _ | product
  · simp only [createReview, hfind]
    split_ifs with hv1 hv2
    · exact ⟨_, rfl⟩
    · exact ⟨_, rfl⟩
    · exact ⟨_, rfl⟩
  · simp only [createReview, hfind]
    split_ifs with hv1 hv2 hb hsold hdup
    all_goals try exact ⟨_, rfl⟩
    exfalso
    have hnone : s.reviews.find? (fun a => a.productId == pid && a.userId == caller) = none := by
      cases hfq : s.reviews.find? (fun a => a.productId == pid && a.userId == caller) with
      | none => rfl
      | some rr => rw [hfq] at hdup; exact absurd rfl hdup
    rw [List.find?_eq_none] at hnone
    exact hnone r hrmem (by simp [h1, h2])

/-- A successful review creation presupposes a sold product whose buyer is
the caller. -/
theorem createReview_success_conditions {caller : UserId} {pid : ProductId} {rating : ℕ}
    {comment : String} {s s' : MState}
    (h : createReview caller pid rating comment s = Except.ok s') :
    ∃ p, findProduct s pid = some p ∧ p.status = PStatus.sold ∧ p.buyerId = some caller := by
  rcases hfind : findProduct s pid with _ | product
  · simp only [createReview, hfind] at h
    split_ifs at h
  · simp only [createReview, hfind] at h
    split_ifs at h with hv1 hv2 hb hsold hdup
    push_neg at hb hsold
    exact ⟨product, rfl, hsold, hb⟩

/-- The duplicate-review conflict response, fired whenever all earlier checks
pass and a review for the pair already exists. -/
theorem createReview_dup_conflict {caller : UserId} {pid : ProductId} {rating : ℕ}
    {comment : String} {s : MState} {p : Product}
    (hp : findProduct s pid = some p) (hb : p.buyerId = some caller)
    (hsold : p.status = PStatus.sold)
    (hr1 : 1 ≤ rating) (hr2 : rating ≤ 5)
    (hc1 : 1 ≤ comment.length) (hc2 : comment.length ≤ 500)
    (hdup : ∃ r ∈ s.reviews, r.productId = pid ∧ r.userId = caller) :
    createReview caller pid rating comment s =
      Except.error ⟨400, "You have already reviewed this product"⟩ := by
  have hsome : (s.reviews.find? fun a => a.productId == pid && a.userId == caller).isSome = true := by
    rcases hdup with ⟨r, hr, hpq, huq⟩
    cases hfq : s.reviews.find? (fun a => a.productId == pid && a.userId == caller) with
    | none =>
      rw [List.find?_eq_none] at hfq
      exact absurd (by simp [hpq, huq]) (hfq r hr)
    | some rr => rfl
  simp [createReview, hp, hb, hsold, hsome, hr1, hr2, hc1, hc2]

/-- An id-keyed rewrite that preserves `productId` and `userId` preserves
pair-uniqueness of the review list. -/
theorem pairUnique_updateById (rid : ℕ) (f : Review → Review)
    (hfp : ∀ a, (f a).productId = a.productId) (hfu : ∀ a, (f a).userId = a.userId)
    (l : List Review)
    (hA : ∀ r1 ∈ l, ∀ r2 ∈ l, r1.productId = r2.productId → r1.userId = r2.userId → r1 = r2) :
    ∀ r1 ∈ updateById (fun r => r.id) rid f l, ∀ r2 ∈ updateById (fun r => r.id) rid f l,
      r1.productId = r2.productId → r1.userId = r2.userId → r1 = r2 := by
  intro r1 hr1 r2 hr2 hp hu
  rcases mem_updateById hr1 with ⟨a1, ha1, rfl⟩
  rcases mem_updateById hr2 with ⟨a2, ha2, rfl⟩
  by_cases hk1 : a1.id = rid
  · by_cases hk2 : a2.id = rid
    · rw [if_pos hk1, if_pos hk2] at hp hu ⊢
      rw [hfp a1, hfp a2] at hp
      rw [hfu a1, hfu a2] at hu
      rw [hA a1 ha1 a2 ha2 hp hu]
    · rw [if_pos hk1, if_neg hk2] at hp hu
      rw [hfp a1] at hp
      rw [hfu a1] at hu
      have heq := hA a1 ha1 a2 ha2 hp hu
      rw [heq] at hk1
      exact absurd hk1 hk2
  · by_cases hk2 : a2.id = rid
    · rw [if_neg hk1, if_pos hk2] at hp hu
      rw [hfp a2] at hp
      rw [hfu a2] at hu
      have heq := hA a1 ha1 a2 ha2 hp hu
      rw [← heq] at hk2
      exact absurd hk2 hk1
    · rw [if_neg hk1, if_neg hk2] at hp hu ⊢
      exact hA a1 ha1 a2 ha2 hp hu

theorem atMostOne_createReview {caller : UserId} {pid : ProductId} {rating : ℕ}
    {comment : String} {s s' : MState}
    (hA : AtMostOnePerPair s) (h : createReview caller pid rating comment s = Except.ok s') :
    AtMostOnePerPair s' := by
  rcases hfind : findProduct s pid with _ | product
  · simp only [createReview, hfind] at h
    split_ifs at h
  · simp only [createReview, hfind] at h
    split_ifs at h with hv1 hv2 hb hsold hdup
    have hs := Except.ok.inj h
    subst hs
    have hnone : ∀ a ∈ s.reviews, ¬ ((a.productId == pid && a.userId == caller) = true) := by
      have hfq : s.reviews.find? (fun a => a.productId == pid && a.userId == caller) = none := by
        cases hfq2 : s.reviews.find? (fun a => a.productId == pid && a.userId == caller) with
        | none => rfl
        | some rr => rw [hfq2] at hdup; exact absurd rfl hdup
      rw [List.find?_eq_none] at hfq
      exact hfq
    intro r1 hr1 r2 hr2 hpidq huidq
    rcases List.mem_append.mp hr1 with hr1 | hr1 <;>
      rcases List.mem_append.mp hr2 with hr2 | hr2
    · exact hA r1 hr1 r2 hr2 hpidq huidq
    · rw [List.mem_singleton] at hr2
      subst hr2
      exact absurd (by simp [hpidq, huidq] : (r1.productId == pid && r1.userId == caller) = true)
        (hnone r1 hr1)
    · rw [List.mem_singleton] at hr1
      subst hr1
      exact absurd (by simp [← hpidq, ← huidq] : (r2.productId == pid && r2.userId == caller) = true)
        (hnone r2 hr2)
    · rw [List.mem_singleton] at hr1 hr2
      rw [hr1, hr2]

theorem atMostOne_updateReview {caller : UserId} {rid : ReviewId} {rating : Option ℕ}
    {comment : Option String} {s s' : MState}
    (hA : AtMostOnePerPair s) (h : updateReview caller rid rating comment s = Except.ok s') :
    AtMostOnePerPair s' := by
  rcases hfindr : findReview s rid with _ | review
  · simp only [updateReview, hfindr] at h
    split_ifs at h
  · simp only [updateReview, hfindr] at h
    split_ifs at h
    cases rating with
    | none =>
      have hs := Except.ok.inj h
      subst hs
      intro r1 hr1 r2 hr2
      exact pairUnique_updateById rid
        (fun r => { r with rating := none.getD r.rating, comment := comment.getD r.comment })
        (fun a => rfl) (fun a => rfl) s.reviews hA r1 hr1 r2 hr2
    | some n =>
      have hs := Except.ok.inj h
      subst hs
      intro r1 hr1 r2 hr2
      exact pairUnique_updateById rid
        (fun r => { r with rating := (some n).getD r.rating, comment := comment.getD r.comment })
        (fun a => rfl) (fun a => rfl) s.reviews hA r1 hr1 r2 hr2

theorem atMostOne_deleteReview {caller : UserId} {rid : ReviewId} {s s' : MState}
    (hA : AtMostOnePerPair s) (h : deleteReview caller rid s = Except.ok s') :
    AtMostOnePerPair s' := by
  rcases hfindr : findReview s rid with _ | review
  · simp only [deleteReview, hfindr] at h
    exact Except.noConfusion h
  · simp only [deleteReview, hfindr] at h
    split_ifs at h
    have hs := Except.ok.inj h
    subst hs
    intro r1 hr1 r2 hr2 hp hu
    exact hA r1 (List.mem_of_mem_filter hr1) r2 (List.mem_of_mem_filter hr2) hp hu

theorem atMostOne_step (op : ReviewOp) (s : MState) (hA : AtMostOnePerPair s) :
    AtMostOnePerPair (applyReviewOp op s) := by
  cases op with
  | create caller pid rating comment =>
    simp only [applyReviewOp]
    cases hr : createReview caller pid rating comment s with
    | ok s' => simp only [runState]; exact atMostOne_createReview hA hr
    | error e => simp only [runState]; exact hA
  | update caller rid rating comment =>
    simp only [applyReviewOp]
    cases hr : updateReview caller rid rating comment s with
    | ok s' => simp only [runState]; exact atMostOne_updateReview hA hr
    | error e => simp only [runState]; exact hA
  | del caller rid =>
    simp only [applyReviewOp]
    cases hr : deleteReview caller rid s with
    | ok s' => simp only [runState]; exact atMostOne_deleteReview hA hr
    | error e => simp only [runState]; exact hA

theorem atMostOne_steps (ops : List ReviewOp) (s : MState) (hA : AtMostOnePerPair s) :
    AtMostOnePerPair (applyReviewOps ops s) := by
  induction ops generalizing s with
  | nil => exact hA
  | cons op t ih => exact ih _ (atMostOne_step op s hA)

/-- **C8**: review creation succeeds only when the product is `sold` and the
caller is its buyer; when a review for the `(productId, userId)` pair already
exists, a second creation never succeeds and leaves the store unchanged —
with the conflict response whenever the earlier buyer/status checks pass —
so at most one review per pair ever exists, under any sequence of review
requests. -/
theorem c8_review_uniqueness (caller : UserId) (pid : ProductId) (rating : ℕ)
    (comment : String) (s : MState) :
    (∀ s', createReview caller pid rating comment s = Except.ok s' →
        ∃ p, findProduct s pid = some p ∧ p.status = PStatus.sold ∧ p.buyerId = some caller) ∧
    ((∃ r ∈ s.reviews, r.productId = pid ∧ r.userId = caller) →
        (∀ s', createReview caller pid rating comment s ≠ Except.ok s') ∧
        runState (createReview caller pid rating comment s) s = s) ∧
    (∀ p, findProduct s pid = some p → p.buyerId = some caller → p.status = PStatus.sold →
        1 ≤ rating → rating ≤ 5 → 1 ≤ comment.length → comment.length ≤ 500 →
        (∃ r ∈ s.reviews, r.productId = pid ∧ r.userId = caller) →
        createReview caller pid rating comment s =
          Except.error ⟨400, "You have already reviewed this product"⟩) ∧
    (AtMostOnePerPair s → ∀ ops : List ReviewOp, AtMostOnePerPair (applyReviewOps ops s)) := by
  refine ⟨?_, ?_, ?_, ?_⟩
  · intro s' hs
    exact createReview_success_conditions hs
  · rintro ⟨r, hr, hpq, huq⟩
    rcases createReview_dup_fails rating comment hr hpq huq with ⟨e, he⟩
    refine ⟨fun s' hs => ?_, by rw [he]; rfl⟩
    rw [he] at hs
    exact Except.noConfusion hs
  · intro p hp hb hsold hr1 hr2 hc1 hc2 hdup
    exact createReview_dup_conflict hp hb hsold hr1 hr2 hc1 hc2 hdup
  · intro hA ops
    exact atMostOne_steps ops s hA

def c8wReview : Review :=
  { id := 0, productId := 30, userId := 32, sellerId := 31, rating := 4, comment := "good" }

def c8wProduct : Product :=
  { id := 30, sellerId := 31, price := 10, status := PStatus.sold,
    buyerId := some 32, ratings := { average := 4, count := 1 } }

def c8wState : MState :=
  { products := [c8wProduct], orders := [], reviews := [c8wReview], users := [] }

/-- Witness for `c8_review_uniqueness`: buyer `32` already reviewed product
`30`; a second creation fails and changes nothing. -/
theorem c8_review_uniqueness_witness :
    (∀ s', createReview 32 30 5 "again" c8wState ≠ Except.ok s') ∧
    runState (createReview 32 30 5 "again" c8wState) c8wState = c8wState :=
  (c8_review_uniqueness 32 30 5 "again" c8wState).2.1
    ⟨c8wReview, by decide, by decide, by decide⟩


/-! ## C9: product deletion and the availability guard -/

/-- **C9** (amended): the `routes/products` delete handler lets the seller
delete only an `available` product and fails with the conflict response
(leaving the store unchanged) when it is `sold` or `pending`; but the
marketplace-backend controller delete (`productController.deleteProduct`)
checks only ownership and removes the product whatever its status. -/
theorem c9_delete_product_characterization (caller : User) (pid : ProductId) (s : MState)
    (p : Product) (hp : findProduct s pid = some p)
    (hrole : caller.role = Role.seller ∨ caller.role = Role.both)
    (hown : p.sellerId = caller.id) :
    ((∃ s', deleteProduct caller pid s = Except.ok s') ↔ p.status = PStatus.available) ∧
    (p.status ≠ PStatus.available →
        deleteProduct caller pid s =
          Except.error ⟨400, "Cannot delete a sold or pending product"⟩ ∧
        runState (deleteProduct caller pid s) s = s) ∧
    (∃ s', mbDeleteProduct caller.id pid s = Except.ok s' ∧
        s'.products = (s.products.filter fun q => q.id != pid)) := by
  have hrole' : ¬ (caller.role ≠ Role.seller ∧ caller.role ≠ Role.both) := by
    rcases hrole with h | h <;> simp [h]
  have hown' : ¬ (p.sellerId ≠ caller.id) := by simp [hown]
  have hemb : mbDeleteProduct caller.id pid s =
      Except.ok { s with products := s.products.filter fun q => q.id != pid } := by
    simp only [mbDeleteProduct, hp]
    rw [if_neg hown']
  by_cases hst : p.status = PStatus.available
  · have he : deleteProduct caller pid s =
        Except.ok { s with products := s.products.filter fun q => q.id != pid } := by
      simp only [deleteProduct, hp]
      rw [if_neg hrole', if_neg hown',
          if_neg (by rw [hst]; decide : ¬ (p.status = PStatus.sold ∨ p.status = PStatus.pending))]
    exact ⟨⟨fun _ => hst, fun _ => ⟨_, he⟩⟩, fun hav => absurd hst hav, ⟨_, hemb, rfl⟩⟩
  · have hsp : p.status = PStatus.sold ∨ p.status = PStatus.pending := by
      cases hq : p.status
      · exact absurd hq hst
      · exact Or.inl rfl
      · exact Or.inr rfl
    have he : deleteProduct caller pid s =
        Except.error ⟨400, "Cannot delete a sold or pending product"⟩ := by
      simp only [deleteProduct, hp]
      rw [if_neg hrole', if_neg hown', if_pos hsp]
    refine ⟨⟨?_, ?_⟩, ?_, ⟨_, hemb, rfl⟩⟩
    · rintro ⟨s', hs⟩
      rw [he] at hs
      exact Except.noConfusion hs
    · intro hav
      exact absurd hav hst
    · intro _
      exact ⟨he, by rw [he]; rfl⟩

def c9Seller : User := { id := 50, role := Role.seller, ratings := { average := 0, count := 0 } }

def c9Product : Product :=
  { id := 51, sellerId := 50, price := 8, status := PStatus.sold,
    buyerId := some 52, ratings := { average := 0, count := 0 } }

def c9State : MState :=
  { products := [c9Product], orders := [], reviews := [], users := [c9Seller] }

/-- **C9** (counterexample): the controller delete succeeds for the seller on
a *sold* product and removes it, so deletion by the seller does not fail for
every non-available status. -/
theorem c9_counterexample :
    c9Product.status = PStatus.sold ∧
    mbDeleteProduct 50 51 c9State =
      Except.ok { products := [], orders := [], reviews := [], users := [c9Seller] } := by
  refine ⟨by decide, by decide⟩

def c9wSeller : User := { id := 53, role := Role.both, ratings := { average := 0, count := 0 } }

def c9wProduct : Product :=
  { id := 54, sellerId := 53, price := 2, status := PStatus.available,
    buyerId := none, ratings := { average := 0, count := 0 } }

def c9wState : MState := { products := [c9wProduct], orders := [], reviews := [], users := [] }

/-- Witness for `c9_delete_product_characterization` on a concrete store. -/
theorem c9_delete_product_characterization_witness :
    (∃ s', deleteProduct c9wSeller 54 c9wState = Except.ok s') ↔
      c9wProduct.status = PStatus.available :=
  (c9_delete_product_characterization c9wSeller 54 c9wState c9wProduct (by decide)
    (Or.inr (by decide)) (by decide)).1

/-! ## C10: admin user deletion performs no rating recomputation -/

/-- **C10**: `DELETE /admin/users/:id` removes the user's products (by
`sellerId`), the reviews they authored (by `userId`) and the user record, and
nothing else: orders are untouched and every remaining product and user is
the very same record as before, so all `ratings.average` / `ratings.count`
fields are exactly as they were — even when reviews counted in those
aggregates were just deleted, since no recomputation is invoked. -/
theorem c10_admin_delete_user_frame (caller : User) (uid : UserId) (s s' : MState)
    (h : adminDeleteUser caller uid s = Except.ok s') :
    s'.products = (s.products.filter fun p => p.sellerId != uid) ∧
    s'.reviews = (s.reviews.filter fun r => r.userId != uid) ∧
    s'.users = (s.users.filter fun u => u.id != uid) ∧
    s'.orders = s.orders ∧
    (∀ p ∈ s'.products, ∃ p0 ∈ s.products, p0.id = p.id ∧ p0.ratings = p.ratings) ∧
    (∀ u ∈ s'.users, ∃ u0 ∈ s.users, u0.id = u.id ∧ u0.ratings = u.ratings) := by
  rcases hfind : findById (fun u => u.id) uid s.users with _ | target
  · simp only [adminDeleteUser, hfind] at h
    split_ifs at h
  · simp only [adminDeleteUser, hfind] at h
    split_ifs at h
    have hs := Except.ok.inj h
    subst hs
    refine ⟨rfl, rfl, rfl, rfl, ?_, ?_⟩
    · intro p hp
      exact ⟨p, List.mem_of_mem_filter hp, rfl, rfl⟩
    · intro u hu
      exact ⟨u, List.mem_of_mem_filter hu, rfl, rfl⟩

def c10Admin : User := { id := 60, role := Role.admin, ratings := { average := 0, count := 0 } }

def c10Victim : User := { id := 61, role := Role.seller, ratings := { average := 5, count := 1 } }

def c10Buyer : User := { id := 62, role := Role.buyer, ratings := { average := 0, count := 0 } }

def c10Product : Product :=
  { id := 63, sellerId := 61, price := 5, status := PStatus.sold,
    buyerId := some 62, ratings := { average := 5, count := 1 } }

def c10Review : Review :=
  { id := 64, productId := 63, userId := 62, sellerId := 61, rating := 5, comment := "ok" }

def c10State : MState :=
  { products := [c10Product], orders := [], reviews := [c10Review],
    users := [c10Admin, c10Victim, c10Buyer] }

def c10StateAfter : MState :=
  { products := [c10Product], orders := [], reviews := [], users := [c10Admin, c10Victim] }

/-- Witness for `c10_admin_delete_user_frame`: deleting buyer `62` removes
their review but the product and seller keep their (now stale) aggregates. -/
theorem c10_admin_delete_user_frame_witness :
    c10StateAfter.products = (c10State.products.filter fun p => p.sellerId != 62) ∧
    c10StateAfter.reviews = (c10State.reviews.filter fun r => r.userId != 62) ∧
    c10StateAfter.users = (c10State.users.filter fun u => u.id != 62) ∧
    c10StateAfter.orders = c10State.orders ∧
    (∀ p ∈ c10StateAfter.products, ∃ p0 ∈ c10State.products, p0.id = p.id ∧ p0.ratings = p.ratings) ∧
    (∀ u ∈ c10StateAfter.users, ∃ u0 ∈ c10State.users, u0.id = u.id ∧ u0.ratings = u.ratings) :=
  c10_admin_delete_user_frame c10Admin 62 c10State c10StateAfter (by decide)


end Marketplace
